import Mathlib

/-!
Verification of `sf-deleted-fields` (`main.go`).

The program queries a Salesforce org for deleted custom fields, resolves each
deleted-field row through a three-stage pipeline to qualified API names, issues
a count query per qualified name, and merges the resulting records into a
persisted JSON state (`ExportData`).

This file gives a shallow embedding of the pure content of `main.go`:
string/CSV handling is modelled over `List Char` with structural recursion
(`strings.Split`, `strings.HasPrefix`, `strings.HasSuffix`, `strings.Contains`
with single-character or ASCII separators coincide with the character-level
functions used here), Go's `int` (64-bit on the release targets) is modelled
as `Int` with an explicit wrap at 2^64 where the code adds counts, and the
file-system effects of the export step are modelled by an explicit
`FileContent` state.
-/

set_option autoImplicit false

/-- Character-level splitter: model of Go `strings.Split` for a one-character
separator (the code only ever splits on `"\n"` and `","`).  Like
`strings.Split`, it returns at least one (possibly empty) piece. -/
def splitCharAux (c : Char) : List Char → List (List Char)
  | [] => [[]]
  | x :: xs =>
      let rest := splitCharAux c xs
      if x = c then [] :: rest
      else
        match rest with
        | [] => [[x]]
        | r :: rs => (x :: r) :: rs

/-- Model of Go `strings.Split(s, sep)` for a single-character separator. -/
def stringsSplit (s : String) (sep : Char) : List String :=
  (splitCharAux sep s.toList).map String.mk

/-- Model of Go `strings.HasPrefix`. -/
def stringsHasPrefix (s pre : String) : Bool :=
  List.isPrefixOf pre.toList s.toList

/-- Model of Go `strings.HasSuffix`. -/
def stringsHasSuffix (s post : String) : Bool :=
  List.isSuffixOf post.toList s.toList

/-- Model of Go `strings.Contains` (substring occurrence).  For the ASCII and
single-character needles used by the code, byte-level containment agrees with
character-level containment on well-formed UTF-8. -/
def stringsContains (s : List Char) (sub : List Char) : Bool :=
  match s with
  | [] => sub.isEmpty
  | x :: xs => List.isPrefixOf sub (x :: xs) || stringsContains xs sub

/-- Drop everything up to and including the first newline: model of
`s[strings.Index(s, "\n")+1:]` (`none` when `strings.Index` returns `-1`).
`'\n'` is a one-byte character, so the byte position used by the Go code is a
character boundary. -/
def dropThroughNewline : List Char → Option (List Char)
  | [] => none
  | c :: cs => if c = '\n' then some cs else dropThroughNewline cs

/-- `DeleteCountRecord` from `main.go` (lines 22–29). -/
structure DeleteCountRecord where
  developerName : String
  tableEnumOrId : String
  qualifiedApiName : String
  apiName : String
  count : Int
  timestamp : Int
deriving DecidableEq, Repr

/-- `LastCount` from `main.go` (lines 31–34). -/
structure LastCount where
  date : String
  count : Int
deriving DecidableEq, Repr

/-- `ExportData` from `main.go` (lines 36–39). -/
structure ExportData where
  results : List DeleteCountRecord
  lastRunCount : List LastCount
deriving DecidableEq, Repr

/-- Wrap an integer into the two's-complement range of Go's 64-bit `int`. -/
def int64Wrap (x : Int) : Int :=
  (x + 2 ^ 63) % 2 ^ 64 - 2 ^ 63

/-- Proleptic-Gregorian civil date from a count of days since 1970-01-01
(the standard civil-from-days algorithm); used to model Go's
`time.Unix(ts, 0).Format("2006-01-02")`. -/
def civilFromDays (z : Int) : Int × Nat × Nat :=
  let z' := z + 719468
  let era : Int := z'.fdiv 146097
  let doe : Nat := (z' - era * 146097).toNat
  let yoe : Nat := (doe - doe / 1460 + doe / 36524 - doe / 146096) / 365
  let y : Int := era * 400 + yoe
  let doy : Nat := doe - (365 * yoe + yoe / 4 - yoe / 100)
  let mp : Nat := (5 * doy + 2) / 153
  let d : Nat := doy - (153 * mp + 2) / 5 + 1
  let m : Nat := if mp < 10 then mp + 3 else mp - 9
  (if m ≤ 2 then y + 1 else y, m, d)

/-- Zero-pad a month/day to two digits (layout `01`/`02`). -/
def pad2 (n : Nat) : String :=
  if n < 10 then "0" ++ toString n else toString n

/-- Zero-pad a year to four digits (layout `2006`). -/
def pad4 (n : Int) : String :=
  if n < 0 then "-" ++ toString (-n)
  else if n < 10 then "000" ++ toString n
  else if n < 100 then "00" ++ toString n
  else if n < 1000 then "0" ++ toString n
  else toString n

/-- Model of Go `time.Unix(ts, 0).Format("2006-01-02")` (UTC is used here;
the Go code formats in the local time zone, which only shifts which calendar
date a timestamp falls on, not any property proved below). -/
def formatDate (ts : Int) : String :=
  match civilFromDays (ts.fdiv 86400) with
  | (y, m, d) => pad4 y ++ "-" ++ pad2 m ++ "-" ++ pad2 d

/-! ## Aggregator: `calculateCurCounts` (`main.go` lines 345–385) -/

/-- `counts[date] += v` on the assoc-list model of the Go map `counts`
(a missing key reads as `0`; the sum wraps like Go's 64-bit `int`).  The list
keeps dates in first-insertion order, a deterministic stand-in for the
unspecified iteration order of a Go map. -/
def bumpCount (counts : List (String × Int)) (date : String) (v : Int) :
    List (String × Int) :=
  if counts.any (fun p => p.1 = date) then
    counts.map (fun p => if p.1 = date then (p.1, int64Wrap (p.2 + v)) else p)
  else
    counts ++ [(date, int64Wrap v)]

/-- One iteration of the loop in `calculateCurCounts` (lines 362–373): the
state is the pair of the Go maps `counts` and `processed` (the latter as the
set of `(date, QualifiedApiName)` pairs marked `true`). -/
def curStep (cp : List (String × Int) × List (String × String))
    (record : DeleteCountRecord) : List (String × Int) × List (String × String) :=
  if (formatDate record.timestamp, record.qualifiedApiName) ∈ cp.2 then cp
  else (bumpCount cp.1 (formatDate record.timestamp) record.count,
        (formatDate record.timestamp, record.qualifiedApiName) :: cp.2)

/-- `calculateCurCounts` (lines 345–385).  `today` stands for
`time.Now().Format("2006-01-02")` in the empty-records branch. -/
def calculateCurCounts (today : String) (records : List DeleteCountRecord) :
    List LastCount :=
  if records.isEmpty then [⟨today, 0⟩]
  else (records.foldl curStep ([], [])).1.map (fun p => ⟨p.1, p.2⟩)

/-! ## Aggregator: `exportResultsAsJSON` (`main.go` lines 304–343) -/

/-- The pure merge performed at lines 322–323: the loaded (or empty) state is
extended with this run's accumulated `deleteCounts`, and `LastRunCount` is set
to `calculateCurCounts(deleteCounts)` — computed from the new batch alone. -/
def mergeResults (exportData : ExportData) (deleteCounts : List DeleteCountRecord)
    (today : String) : ExportData :=
  { results := exportData.results ++ deleteCounts
    lastRunCount := calculateCurCounts today deleteCounts }

/-- Content of the export file as the export step observes it. -/
inductive FileContent where
  /-- `os.Stat` fails: no file, start from the zero-value `ExportData`. -/
  | absent
  /-- A file exists but `decoder.Decode` fails on it (line 317). -/
  | malformed (raw : String)
  /-- A file exists and decodes to `d`. -/
  | wellFormed (d : ExportData)
deriving DecidableEq

/-- The load phase of `exportResultsAsJSON` (lines 308–320). -/
def decodeFile : FileContent → Option (Except String ExportData)
  | .absent => none
  | .malformed raw => some (.error raw)
  | .wellFormed d => some (.ok d)

/-- `exportResultsAsJSON` as a state transformer on the export file: the load
phase (lines 308–320) runs before `os.Create` (line 325), and `log.Fatalf`
terminates the process, so a decode failure yields an error with no write. -/
def exportRun (f : FileContent) (deleteCounts : List DeleteCountRecord)
    (today : String) : Except String FileContent :=
  match decodeFile f with
  | some (.error e) => .error e
  | some (.ok d) => .ok (.wellFormed (mergeResults d deleteCounts today))
  | none => .ok (.wellFormed (mergeResults ⟨[], []⟩ deleteCounts today))

/-- The export file after a run: a fatal error during the load phase exits
before `os.Create` truncates anything, leaving the file as it was. -/
def fileAfterRun (f : FileContent) (deleteCounts : List DeleteCountRecord)
    (today : String) : FileContent :=
  match exportRun f deleteCounts today with
  | .error _ => f
  | .ok f' => f'

/-! ## Pipeline row handling (`main.go` lines 149–265)

Each stage's per-row behaviour is modelled as a function returning
`Option (Option α)`: `none` models a panic (an index out of range on the
comma-split fields), `some none` a skipped row, and `some (some a)` a row
dispatched to the next stage with payload `a`. -/

/-- One loop iteration of `processDeletedFields` (lines 152–182): skip empty
lines and lines starting with `DeveloperName`; split on commas; skip rows
whose first field lacks the `_del` suffix (the skip log at line 160 already
reads `data[1]`); dispatched rows carry `(data[0], data[1])` — both branches
of the goroutine read `data[1]`. -/
def stageARow (line : String) : Option (Option (String × String)) :=
  if line = "" ∨ stringsHasPrefix line "DeveloperName" = true then some none
  else
    match (stringsSplit line ',')[0]?, (stringsSplit line ',')[1]? with
    | some d0, some d1 =>
        if stringsHasSuffix d0 "_del" = true then some (some (d0, d1)) else some none
    | _, _ => none

/-- One loop iteration of `processDeveloperNames` (lines 191–215): skip empty
lines; skip header rows whose second field is `DeveloperName`; dispatched rows
carry `apiData[1]`. -/
def stageBRow (devLine : String) : Option (Option String) :=
  if devLine = "" then some none
  else
    match (stringsSplit devLine ',')[1]? with
    | none => none
    | some a1 => if a1 = "DeveloperName" then some none else some (some a1)

/-- One loop iteration of `processApiNames` (lines 223–262): skip empty lines;
skip header rows whose third field is `QualifiedApiName`; dispatched rows
carry `(apiData[2], apiData[1])` (the `QualifiedApiName` queried and the
`ApiName` stored in the record). -/
def stageCRow (apiLine : String) : Option (Option (String × String)) :=
  if apiLine = "" then some none
  else
    match (stringsSplit apiLine ',')[2]? with
    | none => none
    | some a2 =>
        if a2 = "QualifiedApiName" then some none
        else
          match (stringsSplit apiLine ',')[1]? with
          | none => none
          | some a1 => some (some (a2, a1))

/-- Run a per-row function over every line in order, collecting the dispatched
payloads; any panicking row (`none`) aborts the whole traversal, as a panic in
the Go loop (or in a spawned goroutine) kills the process. -/
def collectRows {α : Type} (f : String → Option (Option α)) :
    List String → Option (List α)
  | [] => some []
  | l :: ls =>
      match f l, collectRows f ls with
      | some none, rest => rest
      | some (some a), some rest => some (a :: rest)
      | _, _ => none

/-- `processDeletedFields` (lines 149–186) up to its Stage-A dispatch: the
`(DeveloperName, TableEnumOrId)` pairs handed to a goroutine, in row order. -/
def processDeletedFields (deletedFieldsCSV : String) :
    Option (List (String × String)) :=
  collectRows stageARow (stringsSplit deletedFieldsCSV '\n')

/-! ## JSON values, encoding of `ExportData`, and `queryCount`
(`main.go` lines 267–302 and 316–334)

JSON documents are modelled by `JsonValue`; numbers are modelled as integers
(every numeric field of the program — counts, timestamps, `totalSize` — holds
integral values; float rounding is out of scope). -/

/-- A JSON value; objects are association lists in field order. -/
inductive JsonValue where
  | null
  | bool (b : Bool)
  | num (n : Int)
  | str (s : String)
  | arr (elems : List JsonValue)
  | obj (fields : List (String × JsonValue))

/-- Field lookup in a decoded JSON object (`jsonData["key"]`). -/
def lookupField : List (String × JsonValue) → String → Option JsonValue
  | [], _ => none
  | (k, v) :: rest, key => if k = key then some v else lookupField rest key

/-- JSON encoding of a `DeleteCountRecord` under its struct tags. -/
def recordToJson (r : DeleteCountRecord) : JsonValue :=
  .obj [("DeveloperName", .str r.developerName),
        ("TableEnumOrId", .str r.tableEnumOrId),
        ("QualifiedApiName", .str r.qualifiedApiName),
        ("ApiName", .str r.apiName),
        ("Count", .num r.count),
        ("Timestamp", .num r.timestamp)]

/-- JSON decoding of a `DeleteCountRecord` under its struct tags. -/
def recordFromJson : JsonValue → Option DeleteCountRecord
  | .obj fields =>
      match lookupField fields "DeveloperName", lookupField fields "TableEnumOrId",
            lookupField fields "QualifiedApiName", lookupField fields "ApiName",
            lookupField fields "Count", lookupField fields "Timestamp" with
      | some (.str dn), some (.str te), some (.str qn), some (.str an),
        some (.num c), some (.num ts) => some ⟨dn, te, qn, an, c, ts⟩
      | _, _, _, _, _, _ => none
  | _ => none

/-- JSON encoding of a `LastCount` under its struct tags. -/
def lastCountToJson (l : LastCount) : JsonValue :=
  .obj [("date", .str l.date), ("count", .num l.count)]

/-- JSON decoding of a `LastCount` under its struct tags. -/
def lastCountFromJson : JsonValue → Option LastCount
  | .obj fields =>
      match lookupField fields "date", lookupField fields "count" with
      | some (.str d), some (.num c) => some ⟨d, c⟩
      | _, _ => none
  | _ => none

/-- Decode every element of a JSON array; any failing element fails the
whole array, as `json.Decode` does. -/
def decodeList {α : Type} (f : JsonValue → Option α) : List JsonValue → Option (List α)
  | [] => some []
  | j :: js =>
      match f j, decodeList f js with
      | some a, some as => some (a :: as)
      | _, _ => none

/-- JSON encoding of the persisted `ExportData` (what `encoder.Encode` writes
at line 333, up to whitespace). -/
def exportDataToJson (d : ExportData) : JsonValue :=
  .obj [("results", .arr (d.results.map recordToJson)),
        ("lastRunCount", .arr (d.lastRunCount.map lastCountToJson))]

/-- JSON decoding of the persisted `ExportData` (what `decoder.Decode` reads
at line 317). -/
def exportDataFromJson : JsonValue → Option ExportData
  | .obj fields =>
      match lookupField fields "results", lookupField fields "lastRunCount" with
      | some (.arr rs), some (.arr ls) =>
          match decodeList recordFromJson rs, decodeList lastCountFromJson ls with
          | some results, some lastRun => some ⟨results, lastRun⟩
          | _, _ => none
      | _, _ => none
  | _ => none

/-- `skipFirstLineIfNeeded` (lines 294–302): when the output contains `»` or
`update available` anywhere, drop everything up to and including the first
newline (if there is one); otherwise return the output unchanged. -/
def skipFirstLineIfNeeded (output : List Char) : List Char :=
  if stringsContains output ['»'] || stringsContains output "update available".toList then
    match dropThroughNewline output with
    | some rest => rest
    | none => output
  else output

/-- `queryCount` (lines 267–292) after a successful command invocation,
parameterised by `parse`, the model of `json.Unmarshal` into
`map[string]interface{}`: strip the advisory first line if needed, parse,
require `result` to be an object, and return its numeric `totalSize`. -/
def queryCount (parse : List Char → Option (List (String × JsonValue)))
    (output : List Char) : Except String Int :=
  match parse (skipFirstLineIfNeeded output) with
  | none => .error "JSON Unmarshal failed"
  | some jsonData =>
      match lookupField jsonData "result" with
      | some (.obj result) =>
          match lookupField result "totalSize" with
          | some (.num totalSize) => .ok totalSize
          | _ => .error "totalSize field is not a float64"
      | _ => .error "result field is not a map"

example : formatDate 0 = "1970-01-01" := by decide
example : stringsSplit "a,b" ',' = ["a", "b"] := by decide
example : stringsHasSuffix "Foo_del" "_del" = true := by decide
example : stringsHasPrefix "DeveloperNameX_del" "DeveloperName" = true := by decide
example : int64Wrap 5 = 5 := by decide
example : calculateCurCounts "2026-10-11" [] = [⟨"2026-10-11", 0⟩] := by decide
example : stageARow "Foo_del" = none := by decide
example :
    processDeletedFields "DeveloperName,TableEnumOrId\nFoo_del,01IX\nBar,tab\n" =
      some [("Foo_del", "01IX")] := by decide
example :
    calculateCurCounts "t" [⟨"F_del", "01IA", "Obj__c", "F", 5, 0⟩] =
      [⟨"1970-01-01", 5⟩] := by decide

/-! ## Lemmas about `calculateCurCounts` -/

/-- The `processed` set only grows across one loop iteration. -/
theorem curStep_processed_mono (cp : List (String × Int) × List (String × String))
    (r : DeleteCountRecord) (x : String × String) (hx : x ∈ cp.2) :
    x ∈ (curStep cp r).2 := by
  unfold curStep
  split
  · exact hx
  · exact List.mem_cons_of_mem _ hx

/-- An already-processed `(date, QualifiedApiName)` pair leaves the state
unchanged. -/
theorem curStep_skip (cp : List (String × Int) × List (String × String))
    (r : DeleteCountRecord)
    (h : (formatDate r.timestamp, r.qualifiedApiName) ∈ cp.2) : curStep cp r = cp := by
  unfold curStep
  exact if_pos h

/-- After processing a record, its `(date, QualifiedApiName)` pair is marked
processed. -/
theorem curStep_mem (cp : List (String × Int) × List (String × String))
    (r : DeleteCountRecord) :
    (formatDate r.timestamp, r.qualifiedApiName) ∈ (curStep cp r).2 := by
  unfold curStep
  split
  · assumption
  · exact List.mem_cons_self _ _

/-- The `processed` set only grows across the whole loop. -/
theorem foldl_curStep_processed_mono (l : List DeleteCountRecord)
    (cp : List (String × Int) × List (String × String)) (x : String × String)
    (hx : x ∈ cp.2) : x ∈ (l.foldl curStep cp).2 := by
  induction l generalizing cp with
  | nil => exact hx
  | cons r rest ih => exact ih _ (curStep_processed_mono _ _ _ hx)

/-- A record whose `(date, QualifiedApiName)` pair is already processed can be
removed from anywhere later in the loop without changing the result. -/
theorem foldl_curStep_drop_processed (l2 l3 : List DeleteCountRecord)
    (r' : DeleteCountRecord) (cp : List (String × Int) × List (String × String))
    (h : (formatDate r'.timestamp, r'.qualifiedApiName) ∈ cp.2) :
    (l2 ++ r' :: l3).foldl curStep cp = (l2 ++ l3).foldl curStep cp := by
  induction l2 generalizing cp with
  | nil =>
    simp only [List.nil_append, List.foldl_cons]
    rw [curStep_skip _ _ h]
  | cons a as ih =>
    simp only [List.cons_append, List.foldl_cons]
    exact ih _ (curStep_processed_mono _ _ _ h)

/-- Core of the de-duplication property on the loop state. -/
theorem foldl_curStep_dedup (l1 l2 l3 : List DeleteCountRecord)
    (r r' : DeleteCountRecord)
    (hd : formatDate r.timestamp = formatDate r'.timestamp)
    (hq : r.qualifiedApiName = r'.qualifiedApiName)
    (cp : List (String × Int) × List (String × String)) :
    (l1 ++ r :: (l2 ++ r' :: l3)).foldl curStep cp =
      (l1 ++ r :: (l2 ++ l3)).foldl curStep cp := by
  induction l1 generalizing cp with
  | nil =>
    simp only [List.nil_append, List.foldl_cons]
    apply foldl_curStep_drop_processed
    rw [← hd, ← hq]
    exact curStep_mem cp r
  | cons a as ih =>
    simp only [List.cons_append, List.foldl_cons]
    exact ih _

/-- C3: Per-date de-duplication is first-seen-wins by qualified API name: in
any list of records containing a record `r` and, later, a record `r'` with the
same calendar date and the same `QualifiedApiName`, the later record
contributes nothing to the computed current counts — the output equals the
output on the list with `r'` removed, so only the first record's count enters
that date's total. -/
theorem claim_C3_dedup_first_seen_wins (today : String)
    (l1 l2 l3 : List DeleteCountRecord) (r r' : DeleteCountRecord)
    (hd : formatDate r.timestamp = formatDate r'.timestamp)
    (hq : r.qualifiedApiName = r'.qualifiedApiName) :
    calculateCurCounts today (l1 ++ r :: (l2 ++ r' :: l3)) =
      calculateCurCounts today (l1 ++ r :: (l2 ++ l3)) := by
  have h1 : (l1 ++ r :: (l2 ++ r' :: l3)).isEmpty = false := by cases l1 <;> rfl
  have h2 : (l1 ++ r :: (l2 ++ l3)).isEmpty = false := by cases l1 <;> rfl
  simp only [calculateCurCounts, h1, h2, Bool.false_eq_true, if_false]
  rw [foldl_curStep_dedup l1 l2 l3 r r' hd hq]

/-- Witness for C3 at a concrete input: two records on the same date with the
same qualified name and different counts (5 and then 7); the duplicate is
dropped. -/
theorem claim_C3_witness :
    calculateCurCounts "2026-10-11"
        [⟨"F_del", "01IA", "Obj__c", "F", 5, 0⟩, ⟨"F_del", "01IA", "Obj__c", "F", 7, 0⟩] =
      calculateCurCounts "2026-10-11" [⟨"F_del", "01IA", "Obj__c", "F", 5, 0⟩] :=
  claim_C3_dedup_first_seen_wins "2026-10-11" [] [] []
    ⟨"F_del", "01IA", "Obj__c", "F", 5, 0⟩ ⟨"F_del", "01IA", "Obj__c", "F", 7, 0⟩ rfl rfl

/-! ## Claims about the export/merge step -/

/-- C1 counterexample: with one previously persisted record (count 5,
timestamp 0) and an empty new batch, the export step writes
`lastRunCount = [{2026-10-11, 0}]`, while the per-date totals over the merged
results sequence are `[{1970-01-01, 5}]` — the code computes `lastRunCount`
from the new batch alone (`calculateCurCounts(deleteCounts)`, line 323). -/
theorem claim_C1_counterexample :
    ¬ ((mergeResults ⟨[⟨"F_del", "01IA", "Obj__c", "F", 5, 0⟩], []⟩ [] "2026-10-11").lastRunCount =
        calculateCurCounts "2026-10-11"
          ((⟨[⟨"F_del", "01IA", "Obj__c", "F", 5, 0⟩], []⟩ : ExportData).results ++ [])) := by
  decide

/-- C1 amended: for every loaded prior state (or the empty state when no file
exists), the export step writes `results = prior ++ new batch` and a
`lastRunCount` equal to the per-date totals computed over the new batch alone,
not over the merged sequence. -/
theorem claim_C1_amended_lastRunCount (f : FileContent) (d : ExportData)
    (deleteCounts : List DeleteCountRecord) (today : String)
    (h : decodeFile f = some (.ok d) ∨ (decodeFile f = none ∧ d = ⟨[], []⟩)) :
    exportRun f deleteCounts today =
      .ok (.wellFormed ⟨d.results ++ deleteCounts, calculateCurCounts today deleteCounts⟩) := by
  rcases h with h | ⟨h, rfl⟩
  · unfold exportRun
    rw [h]
    rfl
  · unfold exportRun
    rw [h]
    rfl

/-- Witness for the amended C1 at a concrete prior state and batch. -/
theorem claim_C1_amended_witness :
    exportRun (.wellFormed ⟨[], [⟨"2020-01-01", 5⟩]⟩)
        [⟨"F_del", "01IA", "Obj__c", "F", 5, 0⟩] "2026-10-11" =
      .ok (.wellFormed ⟨[⟨"F_del", "01IA", "Obj__c", "F", 5, 0⟩],
        calculateCurCounts "2026-10-11" [⟨"F_del", "01IA", "Obj__c", "F", 5, 0⟩]⟩) :=
  claim_C1_amended_lastRunCount (.wellFormed ⟨[], [⟨"2020-01-01", 5⟩]⟩) ⟨[], [⟨"2020-01-01", 5⟩]⟩
    [⟨"F_del", "01IA", "Obj__c", "F", 5, 0⟩] "2026-10-11" (Or.inl rfl)

/-- C2 counterexample: a persisted state whose `lastRunCount` is
`[{2020-01-01, 5}]` is not left unchanged by an export with an empty batch —
`lastRunCount` becomes `[{2026-10-11, 0}]`. -/
theorem claim_C2_counterexample :
    ¬ ((mergeResults ⟨[], [⟨"2020-01-01", 5⟩]⟩ [] "2026-10-11").results =
         (⟨[], [⟨"2020-01-01", 5⟩]⟩ : ExportData).results ∧
       (mergeResults ⟨[], [⟨"2020-01-01", 5⟩]⟩ [] "2026-10-11").lastRunCount =
         (⟨[], [⟨"2020-01-01", 5⟩]⟩ : ExportData).lastRunCount) := by
  decide

/-- C2 amended: exporting with an empty new batch leaves the persisted
`results` sequence unchanged but resets `lastRunCount` to the single entry
`{today, 0}`; consequently the step is idempotent as an operation on states —
a second empty-batch export (same day) changes nothing. -/
theorem claim_C2_amended_empty_batch_idempotent (d : ExportData) (today : String) :
    (mergeResults d [] today).results = d.results ∧
    (mergeResults d [] today).lastRunCount = [⟨today, 0⟩] ∧
    mergeResults (mergeResults d [] today) [] today = mergeResults d [] today := by
  refine ⟨by simp [mergeResults], rfl, ?_⟩
  simp [mergeResults]

/-- C5: if the persisted-state file is present but malformed, the export step
fails fatally (`log.Fatalf` at line 318, before `os.Create` at line 325) and
the file keeps its previous content. -/
theorem claim_C5_malformed_state_fatal (raw : String)
    (deleteCounts : List DeleteCountRecord) (today : String) :
    exportRun (.malformed raw) deleteCounts today = .error raw ∧
    fileAfterRun (.malformed raw) deleteCounts today = .malformed raw :=
  ⟨rfl, rfl⟩

/-- C7: with no persisted state and no newly accumulated records, the export
step writes `results = []` and `lastRunCount = [{today, 0}]` — a single
zero-count entry, never an empty sequence. -/
theorem claim_C7_empty_state (today : String) :
    exportRun .absent [] today = .ok (.wellFormed ⟨[], [⟨today, 0⟩]⟩) := rfl

/-! ## Lemmas about the pipeline row functions -/

/-- A payload collected by `collectRows` comes from some line that the row
function dispatched. -/
theorem collectRows_mem {α : Type} (f : String → Option (Option α))
    (ls : List String) (out : List α) (h : collectRows f ls = some out) :
    ∀ a ∈ out, ∃ l ∈ ls, f l = some (some a) := by
  induction ls generalizing out with
  | nil =>
    simp only [collectRows, Option.some_inj] at h
    subst h
    intro a ha
    cases ha
  | cons l ls ih =>
    simp only [collectRows] at h
    cases hfl : f l with
    | none => rw [hfl] at h; cases h
    | some o =>
      cases o with
      | none =>
        rw [hfl] at h
        intro a ha
        obtain ⟨l', hl', hfa⟩ := ih out h a ha
        exact ⟨l', List.mem_cons_of_mem _ hl', hfa⟩
      | some b =>
        rw [hfl] at h
        cases hrest : collectRows f ls with
        | none => rw [hrest] at h; cases h
        | some rest =>
          rw [hrest] at h
          simp only [Option.some_inj] at h
          subst h
          intro a ha
          rcases List.mem_cons.mp ha with rfl | ha
          · exact ⟨l, List.mem_cons_self _ _, hfl⟩
          · obtain ⟨l', hl', hfa⟩ := ih rest hrest a ha
            exact ⟨l', List.mem_cons_of_mem _ hl', hfa⟩

/-- A dispatched Stage-A row carries a first field ending in `_del`. -/
theorem stageARow_dispatch_suffix (line : String) (p : String × String)
    (h : stageARow line = some (some p)) : stringsHasSuffix p.1 "_del" = true := by
  unfold stageARow at h
  split at h
  · cases h
  · split at h
    · split at h
      · rename_i d0 d1 hsuf
        simp only [Option.some_inj] at h
        rw [← h]
        exact hsuf
      · cases h
    · cases h

/-- For a list with a first element, `headD` agrees with index-0 lookup. -/
theorem headD_of_getElem_zero (l : List String) (d0 : String) (h : l[0]? = some d0) :
    l.headD "" = d0 := by
  cases l with
  | nil => cases h
  | cons a t => simp_all

/-- C4: Stage A processes a row only if its first comma-separated field ends
in `_del`: every pair dispatched by `processDeletedFields` has the `_del`
suffix on its first component, and a header row (line starting with
`DeveloperName`) or a row whose first field lacks the suffix is never
dispatched — so it can never lead to a `DeleteCountRecord`, which are only
created downstream of a dispatch. -/
theorem claim_C4_stage_a_gate :
    (∀ csv rows, processDeletedFields csv = some rows →
       ∀ p ∈ rows, stringsHasSuffix p.1 "_del" = true) ∧
    (∀ line,
       (stringsHasPrefix line "DeveloperName" = true ∨
        stringsHasSuffix ((stringsSplit line ',').headD "") "_del" = false) →
       ∀ p, stageARow line ≠ some (some p)) := by
  constructor
  · intro csv rows h p hp
    obtain ⟨l, _, hfl⟩ := collectRows_mem stageARow _ rows h p hp
    exact stageARow_dispatch_suffix l p hfl
  · intro line hskip p hcontra
    unfold stageARow at hcontra
    split at hcontra
    · cases hcontra
    · rename_i hnot
      rcases hskip with hpre | hsuf
      · exact hnot (Or.inr hpre)
      · split at hcontra
        · split at hcontra
          · rename_i v0 v1 heq0 heq1 hdel
            rw [headD_of_getElem_zero _ _ heq0, hdel] at hsuf
            cases hsuf
          · cases hcontra
        · cases hcontra

/-- Witness for C4: on a concrete decoded table, the only dispatched row is
the `_del` row, and a concrete suffix-less row is never dispatched. -/
theorem claim_C4_witness :
    stringsHasSuffix ("Foo_del", "01IX").1 "_del" = true ∧
    stageARow "Bar,tab" ≠ some (some ("Bar", "tab")) :=
  ⟨claim_C4_stage_a_gate.1 "DeveloperName,TableEnumOrId\nFoo_del,01IX\nBar,tab\n"
      [("Foo_del", "01IX")] (by decide) ("Foo_del", "01IX") (by decide),
   claim_C4_stage_a_gate.2 "Bar,tab" (Or.inr (by decide)) ("Bar", "tab")⟩

/-- C9: each stage indexes fixed field positions of the comma-split row
without a bounds check, so totality needs field-count preconditions: a
non-empty, non-header Stage-A row is handled safely when it has at least 2
fields, a Stage-B row when it has at least 2, and a Stage-C row when it has
at least 3 — and a row with fewer fields (e.g. an eligible `_del` row with no
comma) makes the stage's indexing go out of bounds (`none`, a panic). -/
theorem claim_C9_field_bounds :
    (∀ line, line ≠ "" → stringsHasPrefix line "DeveloperName" = false →
       2 ≤ (stringsSplit line ',').length → (stageARow line).isSome = true) ∧
    (∀ devLine, 2 ≤ (stringsSplit devLine ',').length →
       (stageBRow devLine).isSome = true) ∧
    (∀ apiLine, 3 ≤ (stringsSplit apiLine ',').length →
       (stageCRow apiLine).isSome = true) ∧
    stageARow "Foo_del" = none ∧ stageBRow "OneField" = none ∧
    stageCRow "a,b" = none := by
  refine ⟨?_, ?_, ?_, by decide, by decide, by decide⟩
  · intro line hne hpre hlen
    obtain ⟨a, b, t, hl⟩ : ∃ a b t, stringsSplit line ',' = a :: b :: t := by
      rcases h : stringsSplit line ',' with _ | ⟨a, _ | ⟨b, t⟩⟩
      · rw [h] at hlen; simp at hlen
      · rw [h] at hlen; simp at hlen
      · exact ⟨a, b, t, rfl⟩
    unfold stageARow
    rw [if_neg (by simp [hne, hpre]), hl]
    simp only [List.getElem?_cons_zero, List.getElem?_cons_succ]
    split <;> rfl
  · intro devLine hlen
    obtain ⟨a, b, t, hl⟩ : ∃ a b t, stringsSplit devLine ',' = a :: b :: t := by
      rcases h : stringsSplit devLine ',' with _ | ⟨a, _ | ⟨b, t⟩⟩
      · rw [h] at hlen; simp at hlen
      · rw [h] at hlen; simp at hlen
      · exact ⟨a, b, t, rfl⟩
    unfold stageBRow
    split
    · rfl
    · rw [hl]
      simp only [List.getElem?_cons_zero, List.getElem?_cons_succ]
      split <;> rfl
  · intro apiLine hlen
    obtain ⟨a, b, c, t, hl⟩ : ∃ a b c t, stringsSplit apiLine ',' = a :: b :: c :: t := by
      rcases h : stringsSplit apiLine ',' with _ | ⟨a, _ | ⟨b, _ | ⟨c, t⟩⟩⟩
      · rw [h] at hlen; simp at hlen
      · rw [h] at hlen; simp at hlen
      · rw [h] at hlen; simp at hlen
      · exact ⟨a, b, c, t, rfl⟩
    unfold stageCRow
    split
    · rfl
    · rw [hl]
      simp only [List.getElem?_cons_zero, List.getElem?_cons_succ]
      split
      · rfl
      · rfl
/-- Witness for C9 at concrete rows of each stage. -/
theorem claim_C9_witness :
    (stageARow "Foo_del,01IX").isSome = true ∧ (stageBRow "x,Name").isSome = true ∧
    (stageCRow "a,b,c").isSome = true ∧ stageARow "Foo_del" = none :=
  ⟨claim_C9_field_bounds.1 "Foo_del,01IX" (by decide) (by decide) (by decide),
   claim_C9_field_bounds.2.1 "x,Name" (by decide),
   claim_C9_field_bounds.2.2.1 "a,b,c" (by decide),
   claim_C9_field_bounds.2.2.2.1⟩

/-- C10: the Stage-A header check is a prefix match on the whole line, not an
equality check: every line starting with `DeveloperName` is skipped, so the
row `DeveloperNameX_del,01I000000000001` — whose first field carries the
`_del` suffix — is never dispatched and produces no record. -/
theorem claim_C10_header_prefix_match :
    (∀ line, stringsHasPrefix line "DeveloperName" = true → stageARow line = some none) ∧
    stringsHasSuffix ((stringsSplit "DeveloperNameX_del,01I000000000001" ',').headD "")
      "_del" = true ∧
    processDeletedFields "DeveloperNameX_del,01I000000000001" = some [] := by
  refine ⟨?_, by decide, by decide⟩
  intro line hpre
  unfold stageARow
  rw [if_pos (Or.inr hpre)]

/-- Witness for C10: the `_del` row whose developer name starts with
`DeveloperName` is skipped as a header. -/
theorem claim_C10_witness :
    stageARow "DeveloperNameX_del,01I000000000001" = some none :=
  claim_C10_header_prefix_match.1 "DeveloperNameX_del,01I000000000001" (by decide)

/-! ## Lemmas about `skipFirstLineIfNeeded` and `queryCount` -/

/-- A substring of `s` is a substring of `s ++ r`. -/
theorem stringsContains_mono (s r sub : List Char)
    (h : stringsContains s sub = true) : stringsContains (s ++ r) sub = true := by
  induction s with
  | nil =>
    simp only [stringsContains, List.isEmpty_iff] at h
    subst h
    cases r with
    | nil => rfl
    | cons y ys => rfl
  | cons x xs ih =>
    simp only [List.cons_append, stringsContains, Bool.or_eq_true] at h ⊢
    rcases h with h | h
    · left
      rw [List.isPrefixOf_iff_prefix] at h ⊢
      exact h.trans ((x :: xs).prefix_append r)
    · right
      exact ih h

/-- Dropping through the first newline of `pre ++ '\n' :: post` yields `post`
when `pre` itself has no newline. -/
theorem dropThroughNewline_append (pre post : List Char) (h : '\n' ∉ pre) :
    dropThroughNewline (pre ++ '\n' :: post) = some post := by
  induction pre with
  | nil => simp [dropThroughNewline]
  | cons c cs ih =>
    simp only [List.cons_append, dropThroughNewline]
    have hcne : ¬(c = '\n') := fun hc => h (by rw [hc]; exact List.mem_cons_self _ _)
    rw [if_neg hcne]
    exact ih (fun hm => h (List.mem_cons_of_mem _ hm))

/-- C6: the count query returns the integer in `result.totalSize` of the
(parsed) JSON output; when the output starts with an advisory line carrying
one of the markers (`»` or `update available`) exactly that line — everything
up to and including the first line break — is stripped before parsing; and an
output containing neither marker is passed to the parser unchanged. -/
theorem claim_C6_count_query :
    (∀ parse output jsonData result n,
       parse (skipFirstLineIfNeeded output) = some jsonData →
       lookupField jsonData "result" = some (.obj result) →
       lookupField result "totalSize" = some (.num n) →
       queryCount parse output = .ok n) ∧
    (∀ pre post,
       (stringsContains pre ['»'] = true ∨
        stringsContains pre "update available".toList = true) →
       '\n' ∉ pre →
       skipFirstLineIfNeeded (pre ++ '\n' :: post) = post) ∧
    (∀ output, stringsContains output ['»'] = false →
       stringsContains output "update available".toList = false →
       skipFirstLineIfNeeded output = output) := by
  refine ⟨?_, ?_, ?_⟩
  · intro parse output jsonData result n hp hr ht
    unfold queryCount
    rw [hp]
    dsimp only
    rw [hr]
    dsimp only
    rw [ht]
  · intro pre post hmark hnl
    unfold skipFirstLineIfNeeded
    have hcond : (stringsContains (pre ++ '\n' :: post) ['»'] ||
        stringsContains (pre ++ '\n' :: post) "update available".toList) = true := by
      rcases hmark with h | h
      · rw [stringsContains_mono _ _ _ h]
        rfl
      · rw [stringsContains_mono _ _ _ h]
        simp
    rw [hcond]
    simp only [if_true]
    rw [dropThroughNewline_append _ _ hnl]
  · intro output h1 h2
    unfold skipFirstLineIfNeeded
    rw [h1, h2]
    rfl

/-- Witness for C6: a concrete advisory banner is stripped, a marker-free
output is untouched, and a concrete parsed document yields its `totalSize`. -/
theorem claim_C6_witness :
    queryCount (fun _ => some [("result", JsonValue.obj [("totalSize", JsonValue.num 42)])])
        "{}".toList = .ok 42 ∧
    skipFirstLineIfNeeded ("» update".toList ++ '\n' :: "rest".toList) = "rest".toList ∧
    skipFirstLineIfNeeded "plain".toList = "plain".toList :=
  ⟨claim_C6_count_query.1 _ "{}".toList _ [("totalSize", JsonValue.num 42)] 42 rfl rfl rfl,
   claim_C6_count_query.2.1 "» update".toList "rest".toList (Or.inl (by decide)) (by decide),
   claim_C6_count_query.2.2 "plain".toList (by decide) (by decide)⟩

/-! ## Round-trip of the persisted state -/

/-- Decoding an encoded `DeleteCountRecord` reproduces it. -/
theorem recordFromJson_toJson (r : DeleteCountRecord) :
    recordFromJson (recordToJson r) = some r := rfl

/-- Decoding an encoded `LastCount` reproduces it. -/
theorem lastCountFromJson_toJson (l : LastCount) :
    lastCountFromJson (lastCountToJson l) = some l := rfl

/-- Element-wise decoding inverts element-wise encoding. -/
theorem decodeList_map {α : Type} (f : JsonValue → Option α) (g : α → JsonValue)
    (hfg : ∀ a, f (g a) = some a) (l : List α) :
    decodeList f (l.map g) = some l := by
  induction l with
  | nil => rfl
  | cons a as ih => simp only [List.map_cons, decodeList, hfg, ih]

/-- Decoding an encoded `ExportData` reproduces it. -/
theorem exportData_roundtrip (d : ExportData) :
    exportDataFromJson (exportDataToJson d) = some d := by
  have h1 : decodeList recordFromJson (d.results.map recordToJson) = some d.results :=
    decodeList_map _ _ recordFromJson_toJson d.results
  have h2 : decodeList lastCountFromJson (d.lastRunCount.map lastCountToJson) =
      some d.lastRunCount :=
    decodeList_map _ _ lastCountFromJson_toJson d.lastRunCount
  simp [exportDataToJson, exportDataFromJson, lookupField, h1, h2]

/-- C8 counterexample: for the state written from one prior record (count 5,
timestamp 0) and an empty batch, recomputing the current counts from the
persisted `results` gives `[{1970-01-01, 5}]`, not the persisted
`lastRunCount = [{2026-10-11, 0}]` — so `lastRunCount` is not a function of
the persisted `results`. -/
theorem claim_C8_counterexample :
    ¬ (calculateCurCounts "2026-10-11"
         (mergeResults ⟨[⟨"F_del", "01IA", "Obj__c", "F", 5, 0⟩], []⟩ [] "2026-10-11").results =
       (mergeResults ⟨[⟨"F_del", "01IA", "Obj__c", "F", 5, 0⟩], []⟩ [] "2026-10-11").lastRunCount) := by
  decide

/-- C8 amended: every state written by the export step survives an
encode/decode round-trip exactly (same `results`, same order and values, and
same `lastRunCount`), and its persisted `lastRunCount` is recomputable as a
pure function of this run's new batch (`calculateCurCounts` of the batch) —
not of the persisted `results` sequence. -/
theorem claim_C8_amended_roundtrip (old : ExportData)
    (deleteCounts : List DeleteCountRecord) (today : String) :
    exportDataFromJson (exportDataToJson (mergeResults old deleteCounts today)) =
      some (mergeResults old deleteCounts today) ∧
    (mergeResults old deleteCounts today).lastRunCount =
      calculateCurCounts today deleteCounts :=
  ⟨exportData_roundtrip _, rfl⟩
